import Mathlib

/-!
Verification of the FlowTask task-management frontend and its service worker.

The definitions below are shallow embeddings of the JavaScript source:
`src/frontend/src/App.js` (task listing, drag-and-drop reordering, the AI
assistant chat, the mutation/refetch pattern, the reminder notifications)
and the service worker file (pre-cache install, activation cleanup and
the fetch-interception policy).
-/

namespace FlowTask

/-- Task priority enum (`low`/`medium`/`high`), as in the task form. -/
inductive Priority where
  | low
  | medium
  | high
deriving DecidableEq

/-- `const priorityOrder = { high: 3, medium: 2, low: 1 }` (App.js line 672). -/
def priorityOrder : Priority → Int
  | .high => 3
  | .medium => 2
  | .low => 1

/-- The fields of a task record that the listing and reordering logic reads:
`id`, `text`, `date` (an ISO `YYYY-MM-DD` string), `order` and `priority`. -/
structure Task where
  id : String
  text : String
  date : String
  order : Int
  priority : Priority
deriving DecidableEq

/-- Model of `a.localeCompare(b)` for the ISO date strings the app stores:
negative when `a` precedes `b` lexicographically, positive when it follows,
`0` on equality. -/
def jsCompareStrings (a b : String) : Int :=
  if a < b then -1 else if b < a then 1 else 0

/-- The comparator of `filteredTasks.sort` (App.js lines 673-677):
date first via `localeCompare`, then `a.order - b.order`, then
`priorityOrder[b.priority] - priorityOrder[a.priority]`. -/
def taskCompare (a b : Task) : Int :=
  if a.date ≠ b.date then jsCompareStrings a.date b.date
  else if a.order ≠ b.order then a.order - b.order
  else priorityOrder b.priority - priorityOrder a.priority

/-- `Array.prototype.sort` is a stable sort consistent with its comparator;
we model it as insertion sort with the relation `taskCompare a b ≤ 0`. -/
def sortTasks (ts : List Task) : List Task :=
  ts.insertionSort (fun a b => taskCompare a b ≤ 0)

/-- The ordering the spec describes for the listing: date ascending, then
`order` ascending within a date, then priority descending on equal `order`. -/
def taskKeyLE (a b : Task) : Prop :=
  a.date < b.date ∨
    (a.date = b.date ∧
      (a.order < b.order ∨
        (a.order = b.order ∧ priorityOrder b.priority ≤ priorityOrder a.priority)))

/-! ### Reordering (drag and drop, App.js `handleDrop` lines 750-765) -/

/-- `newTasks.map((task, index) => ({ id: task.id, order: index }))` starting
from index `base`; `taskOrdersOf` below instantiates `base := 0`. -/
def ordersFrom (base : Int) : List Task → List (String × Int)
  | [] => []
  | t :: ts => (t.id, base) :: ordersFrom (base + 1) ts

/-- The `taskOrders` payload built in `handleDrop` (App.js line 761). -/
def taskOrdersOf (seq : List Task) : List (String × Int) :=
  ordersFrom 0 seq

/-- First binding of an id in a `{id, order}` list. -/
def lookupOrder (id : String) : List (String × Int) → Option Int
  | [] => none
  | (i, o) :: rest => if i = id then some o else lookupOrder id rest

/-- Modelled from the spec: the backend handler of `PUT /tasks/reorder` is not
part of the frontend sources; per §4.1 it "assigns `order = index` for each
identifier in the given sequence" and "does not renumber tasks outside the
provided list". -/
def applyReorder (orders : List (String × Int)) (store : List Task) : List Task :=
  store.map fun t =>
    match lookupOrder t.id orders with
    | some o => { t with order := o }
    | none => t

/-- `list.findIndex(p)`: index of the first match, else `-1`. We first compute
the optional index. -/
def findIdxA (p : Task → Bool) : List Task → Option Nat
  | [] => none
  | t :: ts => if p t then some 0 else (findIdxA p ts).map (· + 1)

/-- JavaScript `findIndex` result as a number (`-1` when absent). -/
def jsFindIndex (p : Task → Bool) (l : List Task) : Int :=
  match findIdxA p l with
  | some i => (i : Int)
  | none => -1

/-- The actual start index used by `Array.prototype.splice`: a negative start
counts from the end (clamped at `0`), a nonnegative one is clamped at the
length. -/
def spliceIndex (len : Nat) (start : Int) : Nat :=
  if start < 0 then ((len : Int) + start).toNat else min start.toNat len

/-- Remove the element at index `n` (no change when `n` is out of range). -/
def eraseAt : Nat → List Task → List Task
  | _, [] => []
  | 0, _ :: ts => ts
  | n + 1, t :: ts => t :: eraseAt n ts

/-- Insert `x` at index `n` (append when `n` reaches the end). -/
def insertAt : Nat → Task → List Task → List Task
  | 0, x, l => x :: l
  | _ + 1, x, [] => [x]
  | n + 1, x, t :: ts => t :: insertAt n x ts

/-- `newTasks.splice(start, 1)` (App.js line 758). -/
def jsSpliceRemove1 (l : List Task) (start : Int) : List Task :=
  eraseAt (spliceIndex l.length start) l

/-- `newTasks.splice(start, 0, x)` (App.js line 759). -/
def jsSpliceInsert (l : List Task) (start : Int) (x : Task) : List Task :=
  insertAt (spliceIndex l.length start) x l

/-- `handleDrop` (App.js lines 750-765): no-op when source and target share an
id; otherwise both indices are looked up in the displayed list, the source
index is spliced out and the dragged task is spliced back in at the index
the target originally occupied. Returns the sequence passed on to `reorder`. -/
def handleDropSeq (dragged target : Task) (filtered : List Task) : Option (List Task) :=
  if dragged.id = target.id then none
  else
    let dragIndex := jsFindIndex (fun t => t.id == dragged.id) filtered
    let dropIndex := jsFindIndex (fun t => t.id == target.id) filtered
    let removed := jsSpliceRemove1 filtered dragIndex
    some (jsSpliceInsert removed dropIndex dragged)

/-- The drop sequence as §4.1 of the spec words it: remove the source from its
old position, then insert it immediately before the new position of the target
(the index of the target in the list after the removal). -/
def specDropSeq (dragged target : Task) (filtered : List Task) : Option (List Task) :=
  if dragged.id = target.id then none
  else
    match findIdxA (fun t => t.id == dragged.id) filtered with
    | none => none
    | some i =>
      let removed := eraseAt i filtered
      match findIdxA (fun t => t.id == target.id) removed with
      | none => none
      | some j => some (insertAt j dragged removed)

/-! ### Service worker (cache generations, install, fetch policy) -/

/-- `const CACHE_NAME = "flowtask-pro-v1"`. -/
def CACHE_NAME : String := "flowtask-pro-v1"

/-- `const OFFLINE_URL = "/offline.html"`. -/
def OFFLINE_URL : String := "/offline.html"

/-- `const PRECACHE_ASSETS = [...]`. -/
def PRECACHE_ASSETS : List String :=
  ["/", "/index.html", "/static/js/main.js", "/static/css/main.css", "/manifest.json"]

/-- The names the activate handler deletes:
`cacheNames.filter((name) => name !== CACHE_NAME)`. -/
def deletedCaches (stored : List String) : List String :=
  stored.filter (fun n => n ≠ CACHE_NAME)

/-- The cache names still stored once activation has deleted `deletedCaches`. -/
def afterActivate (stored : List String) : List String :=
  stored.filter (fun n => ¬ (deletedCaches stored).contains n)

/-- `cache.addAll(assets)`, modelled on the Service Worker specification:
every asset is fetched, and the batch cache operation is atomic — if any
single fetch fails the promise rejects and no asset of the batch is stored. -/
def cacheAddAll (fetchOk : String → Bool) (cache : List String)
    (assets : List String) : Except Unit (List String) :=
  if assets.all fetchOk then .ok (cache ++ assets) else .error ()

/-- The install handler: `cache.addAll(PRECACHE_ASSETS).catch(err => log)`.
Returns the resulting cache contents and whether installation succeeded; the
`catch` swallows the rejection, so the second component is always `true`. -/
def installPhase (fetchOk : String → Bool) (cache : List String) :
    List String × Bool :=
  match cacheAddAll fetchOk cache PRECACHE_ASSETS with
  | .ok c => (c, true)
  | .error _ => (cache, true)

/-- `leadingMatch needle hay` is true when `needle` begins `hay`. -/
def leadingMatch : List Char → List Char → Bool
  | [], _ => true
  | _ :: _, [] => false
  | a :: as, b :: bs => a == b && leadingMatch as bs

/-- `hasSub needle hay`: `needle` occurs contiguously somewhere in `hay`. -/
def hasSub (needle : List Char) : List Char → Bool
  | [] => needle.isEmpty
  | c :: rest => leadingMatch needle (c :: rest) || hasSub needle rest

/-- `event.request.url.includes("/api/")`. -/
def urlHasApi (url : String) : Bool :=
  hasSub "/api/".toList url.toList

/-- The fields of a fetch event request that the handler reads, plus the
origin relation of the request (which the handler never reads). -/
structure Request where
  method : String
  url : String
  mode : String
  sameOrigin : Bool
deriving DecidableEq

/-- The guard of the fetch handler (part_000 lines 42-49): it returns early — does
not call `respondWith` — for non-GET requests and for URLs containing
`/api/`; every other request is intercepted. -/
def intercepts (r : Request) : Bool :=
  if r.method ≠ "GET" then false
  else if urlHasApi r.url then false
  else true

/-- The `catch` branch of the intercepted fetch (part_000 lines 59-70): on
network failure return the cached response when present, otherwise the cached
copy of `OFFLINE_URL` for navigations, otherwise nothing. The cache is a
lookup from request URL to stored response body. -/
def handleFetchFailure (cache : String → Option String) (r : Request) :
    Option String :=
  match cache r.url with
  | some resp => some resp
  | none => if r.mode == "navigate" then cache OFFLINE_URL else none

/-! ### AI assistant (`AIAssistantSection.sendMessage`, App.js 905-923) -/

/-- A transcript message as stored in the `messages` state. -/
structure ChatMsg where
  role : String
  content : String
deriving DecidableEq

/-- The component state `sendMessage` reads and writes. -/
structure ChatState where
  messages : List ChatMsg
  inputText : String
  isLoading : Bool
deriving DecidableEq

/-- Drop leading whitespace characters. -/
def dropWhitespace : List Char → List Char
  | [] => []
  | c :: cs => if c.isWhitespace then dropWhitespace cs else c :: cs

/-- JavaScript `String.prototype.trim`: strip whitespace from both ends. -/
def jsTrim (s : String) : String :=
  String.mk ((dropWhitespace (dropWhitespace s.data).reverse).reverse)

/-- The apology text of the assistant, appended in the `catch` branch. -/
def apologyText (language : String) : String :=
  if language == "fr" then
    "Désolé, une erreur s\x27est produite. Veuillez réessayer."
  else
    "I\x27m sorry, I encountered an error. Please try again."

/-- `sendMessage`: guard on blank input or an in-flight request, append the
user message, issue one `POST /chat`, then append either the provider
response or the apology. `outcome` is the result of the provider call (`.error`
when it throws); the second component counts the chat requests issued. The
function is total: the `catch` keeps any provider exception from escaping. -/
def sendMessage (language : String) (st : ChatState)
    (outcome : Except Unit String) : ChatState × Nat :=
  if jsTrim st.inputText = "" || st.isLoading then (st, 0)
  else
    let userMsg : ChatMsg := { role := "user", content := st.inputText }
    let reply : ChatMsg :=
      match outcome with
      | .ok resp => { role := "assistant", content := resp }
      | .error _ => { role := "assistant", content := apologyText language }
    ({ messages := st.messages ++ [userMsg, reply]
       inputText := ""
       isLoading := false }, 1)

/-! ### Mutation/refetch pattern (App.js 1103-1147) -/

/-- The HTTP requests `createTask` issues: the mutation, then on success
`fetchTasks()` and `fetchStats()`. -/
def createTaskRequests (ok : Bool) : List (String × String) :=
  [("POST", "/tasks")] ++
    if ok then [("GET", "/tasks"), ("GET", "/tasks/stats/summary")] else []

/-- The HTTP requests `updateTask` issues. -/
def updateTaskRequests (taskId : String) (ok : Bool) : List (String × String) :=
  [("PUT", "/tasks/" ++ taskId)] ++
    if ok then [("GET", "/tasks"), ("GET", "/tasks/stats/summary")] else []

/-- The HTTP requests `deleteTask` issues. -/
def deleteTaskRequests (taskId : String) (ok : Bool) : List (String × String) :=
  [("DELETE", "/tasks/" ++ taskId)] ++
    if ok then [("GET", "/tasks"), ("GET", "/tasks/stats/summary")] else []

/-- The HTTP requests `toggleTask` issues. -/
def toggleTaskRequests (taskId : String) (ok : Bool) : List (String × String) :=
  [("PUT", "/tasks/" ++ taskId)] ++
    if ok then [("GET", "/tasks"), ("GET", "/tasks/stats/summary")] else []

/-- The HTTP requests `reorderTasks` issues: on success only `fetchTasks()`
runs — there is no `fetchStats()` call in its body (App.js 1142-1147). -/
def reorderTasksRequests (ok : Bool) : List (String × String) :=
  [("PUT", "/tasks/reorder")] ++
    if ok then [("GET", "/tasks")] else []

/-! ### Reminder notifications (`checkReminders`, App.js 1044-1058) -/

/-- The fields of a pending reminder that `checkReminders` reads, plus the
reminder setting of the task (which the notification code never reads). -/
structure Reminder where
  id : String
  text : String
  is_due : Bool
  reminderSetting : String
deriving DecidableEq

/-- The notification body (App.js line 1051): the task text alone when due,
otherwise the task text followed by the fixed phrase `in 15 minutes`
(`dans 15 minutes` in French). -/
def notificationBody (language : String) (r : Reminder) : String :=
  if r.is_due then r.text
  else
    r.text ++ " " ++
      (if language == "fr" then "dans 15 minutes" else "in 15 minutes")

/-- Sample same-date tasks for the concrete scenarios (orders 0, 1, 2). -/
def tA : Task :=
  { id := "A", text := "task A", date := "2025-06-01", order := 0, priority := .high }

/-- Second sample task. -/
def tB : Task :=
  { id := "B", text := "task B", date := "2025-06-01", order := 1, priority := .medium }

/-- Third sample task. -/
def tC : Task :=
  { id := "C", text := "task C", date := "2025-06-01", order := 2, priority := .low }

/-! ### Helper lemmas -/

theorem taskCompare_le_iff (a b : Task) : taskCompare a b ≤ 0 ↔ taskKeyLE a b := by
  unfold taskCompare jsCompareStrings taskKeyLE
  by_cases hd : a.date = b.date
  · rw [if_neg (fun h => h hd)]
    simp only [hd, lt_self_iff_false, false_or, eq_self_iff_true, true_and]
    by_cases ho : a.order = b.order
    · rw [if_neg (fun h => h ho)]
      simp only [ho, lt_self_iff_false, false_or, eq_self_iff_true, true_and]
      omega
    · rw [if_pos ho]
      constructor
      · intro h; exact Or.inl (by omega)
      · rintro (h | ⟨h, _⟩) <;> omega
  · simp only [if_pos hd]
    rcases lt_trichotomy a.date b.date with hlt | heq | hgt
    · simp only [if_pos hlt]
      constructor
      · intro _; exact Or.inl hlt
      · intro _; omega
    · exact absurd heq hd
    · rw [if_neg (lt_asymm hgt), if_pos hgt]
      constructor
      · intro h; omega
      · rintro (h | ⟨h, _⟩)
        · exact absurd h (lt_asymm hgt)
        · exact absurd h hd

theorem taskKeyLE_total (a b : Task) : taskKeyLE a b ∨ taskKeyLE b a := by
  unfold taskKeyLE
  rcases lt_trichotomy a.date b.date with hd | hd | hd
  · exact Or.inl (Or.inl hd)
  · rcases lt_trichotomy a.order b.order with ho | ho | ho
    · exact Or.inl (Or.inr ⟨hd, Or.inl ho⟩)
    · rcases le_total (priorityOrder b.priority) (priorityOrder a.priority) with hp | hp
      · exact Or.inl (Or.inr ⟨hd, Or.inr ⟨ho, hp⟩⟩)
      · exact Or.inr (Or.inr ⟨hd.symm, Or.inr ⟨ho.symm, hp⟩⟩)
    · exact Or.inr (Or.inr ⟨hd.symm, Or.inl ho⟩)
  · exact Or.inr (Or.inl hd)

theorem taskKeyLE_trans (a b c : Task) (hab : taskKeyLE a b) (hbc : taskKeyLE b c) :
    taskKeyLE a c := by
  unfold taskKeyLE at *
  rcases hab with hab | ⟨hdab, hab⟩
  · rcases hbc with hbc | ⟨hdbc, _⟩
    · exact Or.inl (lt_trans hab hbc)
    · exact Or.inl (hdbc ▸ hab)
  · rcases hbc with hbc | ⟨hdbc, hbc⟩
    · exact Or.inl (hdab ▸ hbc)
    · refine Or.inr ⟨hdab.trans hdbc, ?_⟩
      rcases hab with hab | ⟨hoab, hpab⟩
      · rcases hbc with hbc | ⟨hobc, _⟩
        · exact Or.inl (lt_trans hab hbc)
        · exact Or.inl (hobc ▸ hab)
      · rcases hbc with hbc | ⟨hobc, hpbc⟩
        · exact Or.inl (hoab ▸ hbc)
        · exact Or.inr ⟨hoab.trans hobc, le_trans hpbc hpab⟩

theorem lookupOrder_ordersFrom (pre : List Task) (t : Task) (post : List Task)
    (base : Int) (h : ∀ u ∈ pre, u.id ≠ t.id) :
    lookupOrder t.id (ordersFrom base (pre ++ t :: post)) =
      some (base + (pre.length : Int)) := by
  induction pre generalizing base with
  | nil =>
    simp only [List.nil_append, ordersFrom, lookupOrder, if_pos rfl,
      List.length_nil]
    norm_num
  | cons u pre ih =>
    have hu : u.id ≠ t.id := h u (List.mem_cons_self u pre)
    simp only [List.cons_append, ordersFrom, lookupOrder, if_neg hu, List.append_eq]
    rw [ih (base + 1) (fun v hv => h v (List.mem_cons_of_mem u hv))]
    congr 1
    simp only [List.length_cons]
    push_cast
    ring

theorem findIdxA_append_cons (p : Task → Bool) (xs : List Task) (y : Task)
    (l : List Task) (hxs : ∀ u ∈ xs, p u = false) (hy : p y = true) :
    findIdxA p (xs ++ y :: l) = some xs.length := by
  induction xs with
  | nil => simp [findIdxA, hy]
  | cons u xs ih =>
    have hu : p u = false := hxs u (List.mem_cons_self u xs)
    simp [findIdxA, hu, ih (fun v hv => hxs v (List.mem_cons_of_mem u hv))]

theorem eraseAt_len_append (L : List Task) (y : Task) (M : List Task) :
    eraseAt L.length (L ++ y :: M) = L ++ M := by
  induction L with
  | nil => rfl
  | cons a L ih => simp [eraseAt, ih]

theorem insertAt_len_append (L : List Task) (x : Task) (M : List Task) :
    insertAt L.length x (L ++ M) = L ++ x :: M := by
  induction L with
  | nil => rfl
  | cons a L ih => simp [insertAt, ih]

theorem spliceIndex_coe (len i : Nat) (h : i ≤ len) :
    spliceIndex len (i : Int) = i := by
  unfold spliceIndex
  split
  · omega
  · omega

theorem nodup_const_length_le_one {α : Type} (l : List α) (c : α)
    (hnd : l.Nodup) (hall : ∀ x ∈ l, x = c) : l.length ≤ 1 := by
  match l with
  | [] => simp
  | [_] => simp
  | x :: y :: rest =>
    exfalso
    have hx : x = c := hall x (List.mem_cons_self x _)
    have hy : y = c := hall y (List.mem_cons_of_mem x (List.mem_cons_self y rest))
    have : x ∉ y :: rest := (List.nodup_cons.1 hnd).1
    exact this (hx ▸ hy ▸ List.mem_cons_self y rest)

/-! ### Claim theorems -/

/-- Claim C1: the task-manager listing is a pure function that sorts the
filtered tasks by date ascending, then by `order` ascending within the same
date, breaking ties of equal `order` by priority descending (high before
medium before low): the sorted list is a permutation of its input, every pair
of elements in output order satisfies `taskKeyLE`, and the source comparator
(`taskCompare ≤ 0`) coincides with that key ordering. -/
theorem taskManager_sort_spec (ts : List Task) :
    (sortTasks ts).Perm ts ∧ (sortTasks ts).Pairwise taskKeyLE ∧
      ∀ a b : Task, taskCompare a b ≤ 0 ↔ taskKeyLE a b := by
  refine ⟨List.perm_insertionSort _ ts, ?_, fun a b => taskCompare_le_iff a b⟩
  haveI : IsTotal Task (fun a b => taskCompare a b ≤ 0) :=
    ⟨fun a b => by
      rcases taskKeyLE_total a b with h | h
      · exact Or.inl ((taskCompare_le_iff a b).2 h)
      · exact Or.inr ((taskCompare_le_iff b a).2 h)⟩
  haveI : IsTrans Task (fun a b => taskCompare a b ≤ 0) :=
    ⟨fun a b c hab hbc =>
      (taskCompare_le_iff a c).2
        (taskKeyLE_trans a b c ((taskCompare_le_iff a b).1 hab)
          ((taskCompare_le_iff b c).1 hbc))⟩
  exact (List.sorted_insertionSort (fun a b => taskCompare a b ≤ 0) ts).imp
    (fun h => (taskCompare_le_iff _ _).1 h)

/-- Concrete check of C1: sorting two same-date, same-order tasks puts the
high-priority one first. -/
theorem taskManager_sort_spec_witness :
    (sortTasks [{ tB with order := 0 }, tA]).Pairwise taskKeyLE :=
  (taskManager_sort_spec [{ tB with order := 0 }, tA]).2.1

/-- Claim C2: the reorder payload assigns `order = index` to each identifier
at its position in the supplied sequence (first two conjuncts: the payload
binds the id of a task to its index, and applying the reorder to a store rewrites
exactly that order value), and concretely: for the same-date tasks
`tA(order=0), tB(order=1), tC(order=2)`, reordering with `[tC, tA, tB]`
yields `tA.order=1, tB.order=2, tC.order=0` and the listing then returns
`[tC, tA, tB]`. -/
theorem reorder_assigns_index :
    (∀ (pre post : List Task) (t : Task), (∀ u ∈ pre, u.id ≠ t.id) →
      lookupOrder t.id (taskOrdersOf (pre ++ t :: post)) =
        some ((pre.length : Int))) ∧
    (∀ (pre post : List Task) (t : Task) (store : List Task) (u : Task),
      (∀ v ∈ pre, v.id ≠ t.id) → u ∈ store → u.id = t.id →
      { u with order := (pre.length : Int) } ∈
        applyReorder (taskOrdersOf (pre ++ t :: post)) store) ∧
    (applyReorder (taskOrdersOf [tC, tA, tB]) [tA, tB, tC] =
      [{ tA with order := 1 }, { tB with order := 2 }, { tC with order := 0 }]) ∧
    (sortTasks (applyReorder (taskOrdersOf [tC, tA, tB]) [tA, tB, tC]) =
      [{ tC with order := 0 }, { tA with order := 1 }, { tB with order := 2 }]) := by
  refine ⟨?_, ?_, by decide, by decide⟩
  · intro pre post t h
    have := lookupOrder_ordersFrom pre t post 0 h
    simpa [taskOrdersOf] using this
  · intro pre post t store u h hu hid
    have hl : lookupOrder u.id (taskOrdersOf (pre ++ t :: post)) =
        some ((pre.length : Int)) := by
      rw [hid]
      simpa [taskOrdersOf] using lookupOrder_ordersFrom pre t post 0 h
    unfold applyReorder
    refine List.mem_map.2 ⟨u, hu, ?_⟩
    rw [hl]

/-- Concrete check of C2: in the sequence `[tC, tA, tB]` the identifier of
`tA` (position 1) is bound to order 1. -/
theorem reorder_assigns_index_witness :
    lookupOrder tA.id (taskOrdersOf [tC, tA, tB]) = some 1 := by
  have h := reorder_assigns_index.1 [tC] [tB] tA (by decide)
  simpa using h

/-- Claim C3 counterexample: dragging `tA` onto `tB` in the displayed list
`[tA, tB, tC]` (a downward drag) makes the code pass `[tB, tA, tC]` to
`reorder`, whereas removing the source and inserting it immediately before
the new position of the target — the wording of the claim, `specDropSeq` — gives
`[tA, tB, tC]`: the source lands immediately after the target, not before
it. -/
theorem handleDrop_down_drag_counterexample :
    handleDropSeq tA tB [tA, tB, tC] = some [tB, tA, tC] ∧
    specDropSeq tA tB [tA, tB, tC] = some [tA, tB, tC] ∧
    handleDropSeq tA tB [tA, tB, tC] ≠ specDropSeq tA tB [tA, tB, tC] := by
  decide

/-- Claim C3 amended: a drop of a task onto itself is a no-op (no sequence is
produced); otherwise the source is removed and reinserted at the index the target held
original index, which places it immediately after the target when the source
originally preceded the target (downward drag) and immediately before the
target when the source originally followed it (upward drag). -/
theorem handleDrop_characterization :
    (∀ (dragged target : Task) (l : List Task), dragged.id = target.id →
      handleDropSeq dragged target l = none) ∧
    (∀ (xs ys zs : List Task) (dragged target : Task),
      dragged.id ≠ target.id →
      (∀ u ∈ xs, u.id ≠ dragged.id) →
      (∀ u ∈ xs, u.id ≠ target.id) →
      (∀ u ∈ ys, u.id ≠ target.id) →
      handleDropSeq dragged target (xs ++ dragged :: (ys ++ target :: zs)) =
        some (xs ++ (ys ++ target :: dragged :: zs))) ∧
    (∀ (xs ys zs : List Task) (dragged target : Task),
      dragged.id ≠ target.id →
      (∀ u ∈ xs, u.id ≠ dragged.id) →
      (∀ u ∈ xs, u.id ≠ target.id) →
      (∀ u ∈ ys, u.id ≠ dragged.id) →
      handleDropSeq dragged target (xs ++ target :: (ys ++ dragged :: zs)) =
        some (xs ++ dragged :: (target :: (ys ++ zs)))) := by
  refine ⟨?_, ?_, ?_⟩
  · intro dragged target l h
    unfold handleDropSeq
    rw [if_pos h]
  · intro xs ys zs dragged target hne hxd hxt hyt
    have hdrag :
        findIdxA (fun t => t.id == dragged.id)
          (xs ++ dragged :: (ys ++ target :: zs)) = some xs.length := by
      refine findIdxA_append_cons _ xs _ _ ?_ (by simp)
      intro u hu
      rw [beq_eq_false_iff_ne]
      exact hxd u hu
    have hmem : ∀ u ∈ xs ++ dragged :: ys, (u.id == target.id) = false := by
      intro u hu
      rw [beq_eq_false_iff_ne]
      rcases List.mem_append.1 hu with h | h
      · exact hxt u h
      · rcases List.mem_cons.1 h with h | h
        · exact h ▸ hne
        · exact hyt u h
    have hdrop :
        findIdxA (fun t => t.id == target.id)
          (xs ++ dragged :: (ys ++ target :: zs)) =
          some (xs ++ dragged :: ys).length := by
      have h := findIdxA_append_cons (fun t => t.id == target.id)
        (xs ++ dragged :: ys) target zs hmem (by simp)
      rw [List.append_assoc, List.cons_append] at h
      exact h
    unfold handleDropSeq
    rw [if_neg hne]
    simp only [jsFindIndex, hdrag, hdrop]
    unfold jsSpliceRemove1
    have hlen1 : xs.length ≤ (xs ++ dragged :: (ys ++ target :: zs)).length := by
      simp only [List.length_append, List.length_cons]
      omega
    rw [spliceIndex_coe _ _ hlen1, eraseAt_len_append]
    unfold jsSpliceInsert
    have hlen2 : (xs ++ dragged :: ys).length ≤
        (xs ++ (ys ++ target :: zs)).length := by
      simp only [List.length_append, List.length_cons]
      omega
    rw [spliceIndex_coe _ _ hlen2]
    have hsplit : xs ++ (ys ++ target :: zs) = (xs ++ (ys ++ [target])) ++ zs := by
      simp [List.append_assoc]
    have hlen3 : (xs ++ dragged :: ys).length = (xs ++ (ys ++ [target])).length := by
      simp only [List.length_append, List.length_cons, List.length_nil]
    rw [hsplit, hlen3, insertAt_len_append]
    simp [List.append_assoc]
  · intro xs ys zs dragged target hne hxd hxt hyd
    have hmem : ∀ u ∈ xs ++ target :: ys, (u.id == dragged.id) = false := by
      intro u hu
      rw [beq_eq_false_iff_ne]
      rcases List.mem_append.1 hu with h | h
      · exact hxd u h
      · rcases List.mem_cons.1 h with h | h
        · exact h ▸ (Ne.symm hne)
        · exact hyd u h
    have hdrag :
        findIdxA (fun t => t.id == dragged.id)
          (xs ++ target :: (ys ++ dragged :: zs)) =
          some (xs ++ target :: ys).length := by
      have h := findIdxA_append_cons (fun t => t.id == dragged.id)
        (xs ++ target :: ys) dragged zs hmem (by simp)
      rw [List.append_assoc, List.cons_append] at h
      exact h
    have hdrop :
        findIdxA (fun t => t.id == target.id)
          (xs ++ target :: (ys ++ dragged :: zs)) = some xs.length := by
      refine findIdxA_append_cons _ xs _ _ ?_ (by simp)
      intro u hu
      rw [beq_eq_false_iff_ne]
      exact hxt u hu
    unfold handleDropSeq
    rw [if_neg hne]
    simp only [jsFindIndex, hdrag, hdrop]
    unfold jsSpliceRemove1
    have hlen1 : (xs ++ target :: ys).length ≤
        (xs ++ target :: (ys ++ dragged :: zs)).length := by
      simp only [List.length_append, List.length_cons]
      omega
    have hshape : xs ++ target :: (ys ++ dragged :: zs) =
        (xs ++ target :: ys) ++ dragged :: zs := by
      simp [List.append_assoc]
    rw [spliceIndex_coe _ _ hlen1, hshape, eraseAt_len_append]
    unfold jsSpliceInsert
    have hlen2 : xs.length ≤ ((xs ++ target :: ys) ++ zs).length := by
      simp only [List.length_append, List.length_cons]
      omega
    rw [spliceIndex_coe _ _ hlen2]
    have hshape2 : (xs ++ target :: ys) ++ zs = xs ++ (target :: (ys ++ zs)) := by
      simp [List.append_assoc]
    rw [hshape2, insertAt_len_append]

/-- Concrete check of the amended C3: the two-element downward drag of `tA`
onto `tB` produces the sequence `[tB, tA]`. -/
theorem handleDrop_characterization_witness :
    handleDropSeq tA tB [tA, tB] = some [tB, tA] := by
  have h := handleDrop_characterization.2.1 [] [] [] tA tB (by decide)
    (by simp) (by simp) (by simp)
  simpa using h

/-- Claim C4: activation deletes exactly the stored caches whose name differs
from the tag of the current build (`CACHE_NAME`), never deletes the current
generation, and afterwards every surviving cache carries the current tag —
so, since stored cache names are distinct, at most one generation remains. -/
theorem activate_single_generation (stored : List String) (hnd : stored.Nodup) :
    (∀ n ∈ deletedCaches stored, n ≠ CACHE_NAME) ∧
    CACHE_NAME ∉ deletedCaches stored ∧
    (∀ n ∈ afterActivate stored, n = CACHE_NAME) ∧
    (afterActivate stored).length ≤ 1 := by
  have hdel : ∀ n ∈ deletedCaches stored, n ≠ CACHE_NAME := by
    intro n hn
    have := (List.mem_filter.1 hn).2
    simpa using this
  have hsur : ∀ n ∈ afterActivate stored, n = CACHE_NAME := by
    intro n hn
    have hmem := (List.mem_filter.1 hn).1
    have hnc := (List.mem_filter.1 hn).2
    simp only [decide_eq_true_eq] at hnc
    by_contra hne
    have hd : n ∈ deletedCaches stored :=
      List.mem_filter.2 ⟨hmem, by simpa using hne⟩
    exact hnc (List.elem_iff.2 hd)
  refine ⟨hdel, fun h => hdel CACHE_NAME h rfl, hsur, ?_⟩
  exact nodup_const_length_le_one _ _ (hnd.filter _) hsur

/-- Concrete check of C4: with the current generation and one stale
generation stored, at most one cache survives activation. -/
theorem activate_single_generation_witness :
    (afterActivate ["flowtask-pro-v1", "flowtask-pro-v0"]).length ≤ 1 :=
  (activate_single_generation ["flowtask-pro-v1", "flowtask-pro-v0"]
    (by decide)).2.2.2

/-- Claim C5 counterexample: with a fetch environment in which only
`/manifest.json` fails (every other manifest asset fetches fine), the
install phase caches nothing at all — `cache.addAll` is atomic, so the
failure of one asset aborts caching of the others, contrary to the claimed
per-asset best effort. -/
theorem install_atomic_counterexample :
    (installPhase (fun s => s != "/manifest.json") []).1 = [] ∧
    (fun s => s != "/manifest.json") "/index.html" = true ∧
    "/index.html" ∈ PRECACHE_ASSETS ∧
    "/manifest.json" ∈ PRECACHE_ASSETS := by
  decide

/-- Claim C5 amended: if every manifest asset fetches successfully the whole
manifest is appended to the cache; if any asset fails, `cache.addAll` rejects
atomically and nothing is cached; in both cases the rejection is caught, so
installation itself always succeeds. -/
theorem install_addAll_atomic_nonfatal (fetchOk : String → Bool)
    (cache : List String) :
    (PRECACHE_ASSETS.all fetchOk = true →
      (installPhase fetchOk cache).1 = cache ++ PRECACHE_ASSETS) ∧
    (PRECACHE_ASSETS.all fetchOk = false →
      (installPhase fetchOk cache).1 = cache) ∧
    (installPhase fetchOk cache).2 = true := by
  unfold installPhase cacheAddAll
  rcases h : PRECACHE_ASSETS.all fetchOk with _ | _ <;>
    simp [h]

/-- Concrete check of the amended C5: when every asset fetches, the cache
gains the full manifest and installation succeeds. -/
theorem install_addAll_witness :
    (installPhase (fun _ => true) []).1 = [] ++ PRECACHE_ASSETS ∧
    (installPhase (fun _ => true) []).2 = true :=
  ⟨(install_addAll_atomic_nonfatal (fun _ => true) []).1 (by decide),
   (install_addAll_atomic_nonfatal (fun _ => true) []).2.2⟩

/-- Claim C6 counterexample: a cross-origin GET request whose URL does not
contain `/api/` is intercepted by the fetch handler — the code never checks
the origin of the request, contrary to the claim that every cross-origin request
bypasses the cache layer. -/
theorem fetch_cross_origin_counterexample :
    intercepts { method := "GET", url := "https://cdn.example.org/lib.js",
                 mode := "no-cors", sameOrigin := false } = true ∧
    ({ method := "GET", url := "https://cdn.example.org/lib.js",
       mode := "no-cors", sameOrigin := false } : Request).sameOrigin = false := by
  decide

/-- Claim C6 amended: the fetch handler intercepts exactly the GET requests
whose URL does not contain `/api/`; non-GET requests and requests whose URL
contains the API prefix bypass it, but the origin of the request is never
consulted — interception is unchanged under any value of `sameOrigin`. -/
theorem fetch_intercept_policy (r : Request) :
    (r.method ≠ "GET" → intercepts r = false) ∧
    (urlHasApi r.url = true → intercepts r = false) ∧
    (r.method = "GET" → urlHasApi r.url = false → intercepts r = true) ∧
    (∀ b : Bool, intercepts { r with sameOrigin := b } = intercepts r) := by
  refine ⟨?_, ?_, ?_, ?_⟩
  · intro h
    simp [intercepts, h]
  · intro h
    simp [intercepts, h]
  · intro h1 h2
    simp [intercepts, h1, h2]
  · intro b
    rfl

/-- Concrete check of the amended C6: an API call is passed through. -/
theorem fetch_intercept_policy_witness :
    intercepts { method := "GET", url := "https://host/api/tasks",
                 mode := "cors", sameOrigin := true } = false :=
  (fetch_intercept_policy _).2.1 (by decide)

/-- Claim C7 counterexample: a navigation request that misses the cache while
the network is down yields no response at all — the offline page is only
served from the cache, and the pre-cache manifest does not even contain
`OFFLINE_URL`, so with nothing cached the caller observes a failure instead
of the claimed offline fallback page. -/
theorem offline_navigation_counterexample :
    handleFetchFailure (fun _ => none)
      { method := "GET", url := "/dashboard", mode := "navigate",
        sameOrigin := true } = none ∧
    OFFLINE_URL ∉ PRECACHE_ASSETS := by
  exact ⟨rfl, by decide⟩

/-- Claim C7 amended: when the network fetch of an intercepted request fails,
the cached response for the request URL is returned if present; otherwise,
for a navigation, whatever the cache holds for `OFFLINE_URL` is returned
(which is nothing when the offline page was never cached); otherwise the
request resolves with no response and the caller observes a failure. -/
theorem fetch_failure_fallback (cache : String → Option String) (r : Request) :
    (∀ resp, cache r.url = some resp → handleFetchFailure cache r = some resp) ∧
    (cache r.url = none → r.mode = "navigate" →
      handleFetchFailure cache r = cache OFFLINE_URL) ∧
    (cache r.url = none → r.mode ≠ "navigate" →
      handleFetchFailure cache r = none) := by
  refine ⟨?_, ?_, ?_⟩
  · intro resp h
    unfold handleFetchFailure
    rw [h]
  · intro h hm
    unfold handleFetchFailure
    rw [h, if_pos (by simp [hm])]
  · intro h hm
    unfold handleFetchFailure
    rw [h, if_neg (by simpa using hm)]

/-- Concrete check of the amended C7: a navigation missing the cache returns
the cached offline page when one is stored. -/
theorem fetch_failure_fallback_witness :
    handleFetchFailure
      (fun u => if u = "/offline.html" then some "offline page" else none)
      { method := "GET", url := "/dashboard", mode := "navigate",
        sameOrigin := true } = some "offline page" := by
  have h := (fetch_failure_fallback
    (fun u => if u = "/offline.html" then some "offline page" else none)
    { method := "GET", url := "/dashboard", mode := "navigate",
      sameOrigin := true }).2.1 (by decide) rfl
  rw [h]
  decide

/-- Claim C8: when the chat request throws (outcome `.error`), a send with
non-blank input and no in-flight request leaves the transcript extended by
exactly one user message (the sent text) followed by exactly one assistant
apology message, the user- and assistant-role message counts each grow by
one, and exactly one chat request was issued (no automatic retry); the
handler is a total function, so no exception reaches the caller. -/
theorem sendMessage_failure_transcript (language : String) (st : ChatState)
    (h1 : jsTrim st.inputText ≠ "") (h2 : st.isLoading = false) :
    (sendMessage language st (.error ())).1.messages =
      st.messages ++ [{ role := "user", content := st.inputText },
                      { role := "assistant", content := apologyText language }] ∧
    ((sendMessage language st (.error ())).1.messages.filter
        (fun m => m.role == "user")).length =
      (st.messages.filter (fun m => m.role == "user")).length + 1 ∧
    ((sendMessage language st (.error ())).1.messages.filter
        (fun m => m.role == "assistant")).length =
      (st.messages.filter (fun m => m.role == "assistant")).length + 1 ∧
    (sendMessage language st (.error ())).2 = 1 := by
  have hguard : (decide (jsTrim st.inputText = "") || st.isLoading) = false := by
    rw [h2]
    simpa using h1
  unfold sendMessage
  rw [if_neg (by simp [hguard, h1, h2])]
  refine ⟨rfl, ?_, ?_, rfl⟩
  · simp [List.filter_append]
  · simp [List.filter_append]

/-- Concrete check of C8: sending "hello" while the provider throws appends
the user message and the English apology, with one request issued. -/
theorem sendMessage_failure_transcript_witness :
    (sendMessage "en" { messages := [], inputText := "hello", isLoading := false }
        (.error ())).1.messages =
      [{ role := "user", content := "hello" },
       { role := "assistant", content := apologyText "en" }] ∧
    (sendMessage "en" { messages := [], inputText := "hello", isLoading := false }
        (.error ())).2 = 1 := by
  have h := sendMessage_failure_transcript "en"
    { messages := [], inputText := "hello", isLoading := false }
    (by decide) rfl
  exact ⟨by simpa using h.1, h.2.2.2⟩

/-- Claim C9 counterexample: after a successful reorder the client refetches
only the task list — the stats summary endpoint is not requested, although
every other successful mutation refetches both. -/
theorem reorder_refetch_counterexample :
    ("GET", "/tasks/stats/summary") ∉ reorderTasksRequests true ∧
    ("GET", "/tasks") ∈ reorderTasksRequests true ∧
    ("GET", "/tasks/stats/summary") ∈ createTaskRequests true := by
  decide

/-- Claim C9 amended: after a successful create, update, delete or
toggle-complete the client re-reads both the task list and the stats summary;
after a successful reorder it re-reads only the task list (no stats refetch);
a failed mutation triggers no refetch at all. -/
theorem mutation_refetch_policy (taskId : String) :
    (("GET", "/tasks") ∈ createTaskRequests true ∧
      ("GET", "/tasks/stats/summary") ∈ createTaskRequests true) ∧
    (("GET", "/tasks") ∈ updateTaskRequests taskId true ∧
      ("GET", "/tasks/stats/summary") ∈ updateTaskRequests taskId true) ∧
    (("GET", "/tasks") ∈ deleteTaskRequests taskId true ∧
      ("GET", "/tasks/stats/summary") ∈ deleteTaskRequests taskId true) ∧
    (("GET", "/tasks") ∈ toggleTaskRequests taskId true ∧
      ("GET", "/tasks/stats/summary") ∈ toggleTaskRequests taskId true) ∧
    (("GET", "/tasks") ∈ reorderTasksRequests true ∧
      ("GET", "/tasks/stats/summary") ∉ reorderTasksRequests true) ∧
    createTaskRequests false = [("POST", "/tasks")] ∧
    updateTaskRequests taskId false = [("PUT", "/tasks/" ++ taskId)] ∧
    deleteTaskRequests taskId false = [("DELETE", "/tasks/" ++ taskId)] ∧
    toggleTaskRequests taskId false = [("PUT", "/tasks/" ++ taskId)] ∧
    reorderTasksRequests false = [("PUT", "/tasks/reorder")] := by
  exact ⟨⟨by simp [createTaskRequests], by simp [createTaskRequests]⟩,
    ⟨by simp [updateTaskRequests], by simp [updateTaskRequests]⟩,
    ⟨by simp [deleteTaskRequests], by simp [deleteTaskRequests]⟩,
    ⟨by simp [toggleTaskRequests], by simp [toggleTaskRequests]⟩,
    ⟨by simp [reorderTasksRequests], by simp [reorderTasksRequests]⟩,
    rfl, rfl, rfl, rfl, rfl⟩

/-- Claim C10: for a pending reminder with `is_due = false`, the notification
body is always the task text followed by the fixed phrase "in 15 minutes"
("dans 15 minutes" in French), and it does not depend on the actual
reminder setting. -/
theorem reminder_body_fifteen_minutes (language : String) (r : Reminder)
    (h : r.is_due = false) :
    notificationBody language r =
      r.text ++ " " ++
        (if language == "fr" then "dans 15 minutes" else "in 15 minutes") ∧
    ∀ s : String,
      notificationBody language { r with reminderSetting := s } =
        notificationBody language r := by
  constructor
  · unfold notificationBody
    rw [if_neg (by simp [h])]
  · intro s
    rfl

/-- Concrete check of C10: a reminder whose setting is a one-hour lead is
still announced as due "in 15 minutes". -/
theorem reminder_body_fifteen_minutes_witness :
    notificationBody "en"
      { id := "1", text := "Call mom", is_due := false,
        reminderSetting := "1hour" } = "Call mom in 15 minutes" := by
  have h := (reminder_body_fifteen_minutes "en"
    { id := "1", text := "Call mom", is_due := false,
      reminderSetting := "1hour" } rfl).1
  rw [h]
  decide

end FlowTask
